import Mathlib

/-!
Verification of the interval/timestamp literal parser (src/parser/datetime.rs).

The Rust source is shallowly embedded as follows:
* `&str` values become `List Char` (the Rust code iterates `value.chars()`;
  every character the scanner accepts is ASCII, so the `enumerate` index used
  in error messages and in the `value.get(i..)` slice agrees with the char
  position).
* `u64` / `u32` / `i64` arithmetic is `Nat` / `Int` with the machine bounds
  (`2^64`, `2^32`, `2^63`) made explicit where the Rust operation can
  overflow.  An overflowing `*`, `+`, unary `-` or `u32::pow`, and the
  `.expect(..)` on the field-successor iterator, are modelled as
  `RustResult.panic` (Rust debug-profile overflow checks abort; in release
  the same multiplications wrap — either way no `Result` error is produced).
  The `as i64` cast never aborts and is modelled by two's-complement
  reinterpretation (`u64_as_i64`).
* `Result<T, ParserError>` becomes `RustResult T`.  The Rust error type has
  two variants, `TokenizerError(String)` and `ParserError(String)`; each
  distinct format string of the source is one constructor here, carrying the
  formatted data instead of prose.  `TokenizerError` is the only constructor
  of the tokenizer-error kind; all others are parser errors.
-/

/-- Token alphabet, from `enum IntervalToken` of the source. -/
inductive IntervalToken where
  | Dash
  | Space
  | Colon
  | Dot
  | Plus
  | Num (val : Nat)
  | Nanos (val : Nat)
deriving DecidableEq, Repr

/-- Date/time fields, from `enum DateTimeField` of `crate::parser` (the enum's
declaration is outside the staged source; its variants are those the staged
code matches on). -/
inductive DateTimeField where
  | Year
  | Month
  | Day
  | Hour
  | Minute
  | Second
  | TimezoneOffsetSecond
deriving DecidableEq, Repr

/-- Modelled from the spec: the successor operation of `DateTimeField`
(`current_field.into_iter().next()` in the source; the iterator's definition
is in `crate::parser`, outside the staged files).  Per the spec the fields are
ordered `Year < Month < Day < Hour < Minute < Second`, the successor is
defined for every field except the terminal `Second`, and
`TimezoneOffsetSecond` is a distinct member outside that order (never a valid
leading field), so it has no successor either. -/
def DateTimeField.successor : DateTimeField → Option DateTimeField
  | .Year => some .Month
  | .Month => some .Day
  | .Day => some .Hour
  | .Hour => some .Minute
  | .Minute => some .Second
  | .Second => none
  | .TimezoneOffsetSecond => none

/-- Modelled from the spec: `ParsedDateTime` of `crate::ast` (outside the
staged files).  A record of independently optional fields, `is_positive`
defaulting to `true` and everything else unset. -/
structure ParsedDateTime where
  is_positive : Bool := true
  year : Option Nat := none
  month : Option Nat := none
  day : Option Nat := none
  hour : Option Nat := none
  minute : Option Nat := none
  second : Option Nat := none
  nano : Option Nat := none
  timezone_offset_second : Option Int := none
deriving DecidableEq, Repr

/-- The source's `ParserError`, one constructor per error site / format
string.  `TokenizerError` is the `ParserError::TokenizerError` variant
("Invalid character at offset {i} in {value}: {chr}", raised by both
tokenizers); every other constructor is a `ParserError::ParserError`:
* `NumberParseError n idx` — "Unable to parse value as a number at index":
  `n.parse::<u64>()` failed in `parse_num` of either tokenizer;
* `FractionParseError n` — "couldn't parse fraction of second":
  `n.parse::<u32>()` failed on a fractional buffer;
* `InvalidMonth` / `InvalidDay` — "Invalid Month/Day {v} in {value}";
* `TooManySeconds v` — "Too many numbers to parse as a second at {v}";
* `IntervalPartMismatch i value provided expected` — "Invalid interval part
  at offset {i}: {value} provided {provided} but expected {expected}";
* `TimezonePartMismatch` — the analogous "Invalid interval time zone part".
-/
inductive ParserError where
  | TokenizerError (offset : Nat) (value : List Char) (chr : Char)
  | NumberParseError (n : List Char) (idx : Nat)
  | FractionParseError (n : List Char)
  | InvalidMonth (v : Nat) (value : List Char)
  | InvalidDay (v : Nat) (value : List Char)
  | TooManySeconds (v : Nat)
  | IntervalPartMismatch (i : Nat) (value : List Char)
      (provided expected : IntervalToken)
  | TimezonePartMismatch (i : Nat) (value : List Char)
      (provided expected : IntervalToken)
deriving DecidableEq, Repr

/-- `Result<T, ParserError>` extended with the abort outcome: `panic` stands
for a Rust panic (a failed `.expect` or a debug overflow check). -/
inductive RustResult (α : Type) where
  | ok (val : α)
  | err (e : ParserError)
  | panic
deriving DecidableEq, Repr

/-- Numeric value of a decimal digit string (what a successful
`str::parse` returns). -/
def digitsVal (n : List Char) : Nat :=
  n.foldl (fun acc c => 10 * acc + (c.toNat - ('0').toNat)) 0

/-- `n.parse::<u64>()`: succeeds on a non-empty all-digit string whose value
fits in a `u64`. -/
def parse_u64 (n : List Char) : Option Nat :=
  if n ≠ [] ∧ n.all Char.isDigit ∧ digitsVal n < 2 ^ 64 then some (digitsVal n)
  else none

/-- `n.parse::<u32>()`: succeeds on a non-empty all-digit string whose value
fits in a `u32`. -/
def parse_u32 (n : List Char) : Option Nat :=
  if n ≠ [] ∧ n.all Char.isDigit ∧ digitsVal n < 2 ^ 32 then some (digitsVal n)
  else none

/-- `parse_num` nested in `tokenize_interval`.  For a fractional buffer it
parses a `u32`, computes `multiplicand = 1_000_000_000 / 10_u32.pow(chars)`
and returns `Nanos(raw * multiplicand)`; `10_u32.pow(chars)` (and, in
principle, the final multiplication) aborts on u32 overflow.  Otherwise it
parses the buffer as a `u64` `Num`. -/
def parse_num (n : List Char) (idx : Nat) (is_fraction : Bool) :
    RustResult IntervalToken :=
  if is_fraction then
    match parse_u32 n with
    | none => .err (.FractionParseError n)
    | some raw =>
      let chars := n.length
      if 2 ^ 32 ≤ 10 ^ chars then .panic
      else
        let multiplicand := 1000000000 / 10 ^ chars
        if 2 ^ 32 ≤ raw * multiplicand then .panic
        else .ok (.Nanos (raw * multiplicand))
  else
    match parse_u64 n with
    | none => .err (.NumberParseError n idx)
    | some v => .ok (.Num v)

/-- `parse_num` nested in `tokenize_timezone` (no fractional handling). -/
def parse_num_tz (n : List Char) (idx : Nat) : RustResult IntervalToken :=
  match parse_u64 n with
  | none => .err (.NumberParseError n idx)
  | some v => .ok (.Num v)

/-- The character loop of `tokenize_timezone`: `value` is the suffix the main
tokenizer handed over (used whole in error messages), `toks` the tokens
emitted so far, `num_buf` the digit buffer, `i` the position of the next
character.  Note the `-` and `+` arms clear the buffer without flushing
it. -/
def tokenize_timezone_loop (value : List Char) (toks : List IntervalToken)
    (num_buf : List Char) (i : Nat) : List Char → RustResult (List IntervalToken)
  | [] =>
    if num_buf ≠ [] then
      match parse_num_tz num_buf 0 with
      | .ok t => .ok (toks ++ [t])
      | .err e => .err e
      | .panic => .panic
    else .ok toks
  | c :: rest =>
    if c = '-' then
      tokenize_timezone_loop value (toks ++ [.Dash]) [] (i + 1) rest
    else if c = ' ' then
      match parse_num_tz num_buf i with
      | .ok t => tokenize_timezone_loop value (toks ++ [t, .Space]) [] (i + 1) rest
      | .err e => .err e
      | .panic => .panic
    else if c = ':' then
      match parse_num_tz num_buf i with
      | .ok t => tokenize_timezone_loop value (toks ++ [t, .Colon]) [] (i + 1) rest
      | .err e => .err e
      | .panic => .panic
    else if c = '+' then
      tokenize_timezone_loop value (toks ++ [.Plus]) [] (i + 1) rest
    else if c.isDigit then
      tokenize_timezone_loop value toks (num_buf ++ [c]) (i + 1) rest
    else .err (.TokenizerError i value c)

/-- `tokenize_timezone(value)`. -/
def tokenize_timezone (value : List Char) : RustResult (List IntervalToken) :=
  tokenize_timezone_loop value [] [] 0 value

/-- The character loop of `tokenize_interval`: scans the remaining characters
with the accumulated tokens, digit buffer, fractional flag and
time-value-seen flag.  `value` is the whole input (for error messages), `i`
the position of the next character. -/
def tokenize_loop (include_timezone : Bool) (value : List Char)
    (toks : List IntervalToken) (num_buf : List Char)
    (is_frac after_time : Bool) (i : Nat) :
    List Char → RustResult (List IntervalToken × List IntervalToken)
  | [] =>
    if num_buf ≠ [] then
      match parse_num num_buf 0 is_frac with
      | .ok t => .ok (toks ++ [t], [])
      | .err e => .err e
      | .panic => .panic
    else .ok (toks, [])
  | c :: rest =>
    if c = '-' then
      if num_buf ≠ [] then
        match parse_num num_buf i is_frac with
        | .ok t =>
          tokenize_loop include_timezone value (toks ++ [t, .Dash]) [] false
            after_time (i + 1) rest
        | .err e => .err e
        | .panic => .panic
      else
        tokenize_loop include_timezone value (toks ++ [.Dash]) [] false
          after_time (i + 1) rest
    else if c = ' ' then
      match parse_num num_buf i is_frac with
      | .ok t =>
        tokenize_loop include_timezone value (toks ++ [t, .Space]) [] false
          after_time (i + 1) rest
      | .err e => .err e
      | .panic => .panic
    else if c = ':' then
      match parse_num num_buf i is_frac with
      | .ok t =>
        tokenize_loop include_timezone value (toks ++ [t, .Colon]) [] false
          true (i + 1) rest
      | .err e => .err e
      | .panic => .panic
    else if c = '.' then
      match parse_num num_buf i is_frac with
      | .ok t =>
        tokenize_loop include_timezone value (toks ++ [t, .Dot]) [] true
          after_time (i + 1) rest
      | .err e => .err e
      | .panic => .panic
    else if c = '+' then
      if include_timezone ≠ true ∨ after_time ≠ true then
        .err (.TokenizerError i value c)
      else
        match parse_num num_buf 0 is_frac with
        | .ok t =>
          match tokenize_timezone (c :: rest) with
          | .ok timezone_toks => .ok (toks ++ [t], timezone_toks)
          | .err e => .err e
          | .panic => .panic
        | .err e => .err e
        | .panic => .panic
    else if c.isDigit then
      tokenize_loop include_timezone value toks (num_buf ++ [c]) is_frac
        after_time (i + 1) rest
    else .err (.TokenizerError i value c)

/-- `tokenize_interval(value, include_timezone)`. -/
def tokenize_interval (value : List Char) (include_timezone : Bool) :
    RustResult (List IntervalToken × List IntervalToken) :=
  tokenize_loop include_timezone value [] [] false false 0 value

/-- The canonical pattern `all_toks` of `potential_interval_tokens`
(year, month, day, hour, minute, second, nanos with their separators). -/
def all_toks : List IntervalToken :=
  [.Num 0, .Dash, .Num 0, .Dash, .Num 0, .Space,
   .Num 0, .Colon, .Num 0, .Colon, .Num 0, .Dot, .Nanos 0]

/-- The starting offset `potential_interval_tokens` selects for a leading
field (the `match from` of the source; `TimezoneOffsetSecond` falls back to
offset 0, flagged there with a TODO). -/
def field_offset : DateTimeField → Nat
  | .Year => 0
  | .Month => 2
  | .Day => 4
  | .Hour => 6
  | .Minute => 8
  | .Second => 10
  | .TimezoneOffsetSecond => 0

/-- `potential_interval_tokens(from)`: the canonical pattern's suffix from
the leading field's offset. -/
def potential_interval_tokens (from_ : DateTimeField) : List IntervalToken :=
  all_toks.drop (field_offset from_)

/-- `potential_timezone_tokens()`. -/
def potential_timezone_tokens : List IntervalToken :=
  [.Plus, .Num 0, .Colon, .Num 0]

/-- The Rust `as i64` cast of a `u64` value: two's-complement
reinterpretation. -/
def u64_as_i64 (v : Nat) : Int :=
  if v < 2 ^ 63 then (v : Int) else (v : Int) - 2 ^ 64

/-- `i64` addition with Rust debug overflow checking: `none` is the panic. -/
def i64_checked_add (a b : Int) : Option Int :=
  if -(2 ^ 63) ≤ a + b ∧ a + b < 2 ^ 63 then some (a + b) else none

/-- The `actual.zip(&expected)` loop of `build_parsed_datetime`: walks the
body tokens against the expected pattern, maintaining the current-field
cursor and the seconds-seen counter, and writes fields of `pdt`.  The loop
ends when either list is exhausted (extra tokens of the longer list are
never looked at).  On a `Num`/`Num` pair the cursor advances to its
successor unless it already rests on `Second`; an absent successor is the
source's `.expect("Exhausted day iterator")` panic. -/
def assign_loop (value : List Char) :
    List IntervalToken → List IntervalToken → DateTimeField → Nat →
    ParsedDateTime → Nat → RustResult ParsedDateTime
  | [], _, _, _, pdt, _ => .ok pdt
  | _ :: _, [], _, _, pdt, _ => .ok pdt
  | atok :: arest, etok :: erest, current_field, seconds_seen, pdt, i =>
    match atok, etok with
    | .Dash, .Dash =>
      assign_loop value arest erest current_field seconds_seen pdt (i + 1)
    | .Space, .Space =>
      assign_loop value arest erest current_field seconds_seen pdt (i + 1)
    | .Colon, .Colon =>
      assign_loop value arest erest current_field seconds_seen pdt (i + 1)
    | .Dot, .Dot =>
      assign_loop value arest erest current_field seconds_seen pdt (i + 1)
    | .Num v, .Num _ =>
      let written : RustResult ParsedDateTime :=
        match current_field with
        | .Year => .ok { pdt with year := some v }
        | .Month =>
          if v < 1 then .err (.InvalidMonth v value)
          else .ok { pdt with month := some v }
        | .Day =>
          if v < 1 then .err (.InvalidDay v value)
          else .ok { pdt with day := some v }
        | .Hour => .ok { pdt with hour := some v }
        | .Minute => .ok { pdt with minute := some v }
        | .Second =>
          if seconds_seen = 0 then .ok { pdt with second := some v }
          else .err (.TooManySeconds v)
        | .TimezoneOffsetSecond =>
          .ok { pdt with timezone_offset_second := some (u64_as_i64 v) }
      match written with
      | .err e => .err e
      | .panic => .panic
      | .ok pdt' =>
        if current_field = .Second then
          assign_loop value arest erest .Second 1 pdt' (i + 1)
        else
          match current_field.successor with
          | some f' => assign_loop value arest erest f' seconds_seen pdt' (i + 1)
          | none => .panic
    | .Nanos v, .Nanos _ =>
      if seconds_seen = 1 then
        assign_loop value arest erest current_field seconds_seen
          { pdt with nano := some v } (i + 1)
      else .err (.IntervalPartMismatch i value (.Nanos v) etok)
    | provided, expected => .err (.IntervalPartMismatch i value provided expected)

/-- The timezone zip loop of `build_parsed_datetime`: walks the timezone
tokens against `potential_timezone_tokens`, accumulating the offset.  The
first `Num` contributes `(val * 60 * 60) as i64`, the second `(val * 60) as
i64`, later ones nothing.  The `u64` multiplications and the `i64` addition
carry Rust debug overflow checks (panic), the `as i64` casts wrap. -/
def tz_loop (value : List Char) :
    List IntervalToken → List IntervalToken → Bool → Bool → Int → Nat →
    RustResult Int
  | [], _, _, _, tz_offset, _ => .ok tz_offset
  | _ :: _, [], _, _, tz_offset, _ => .ok tz_offset
  | atok :: arest, etok :: erest, hours_seen, minutes_seen, tz_offset, i =>
    match atok, etok with
    | .Dash, .Dash =>
      tz_loop value arest erest hours_seen minutes_seen tz_offset (i + 1)
    | .Space, .Space =>
      tz_loop value arest erest hours_seen minutes_seen tz_offset (i + 1)
    | .Colon, .Colon =>
      tz_loop value arest erest hours_seen minutes_seen tz_offset (i + 1)
    | .Dot, .Dot =>
      tz_loop value arest erest hours_seen minutes_seen tz_offset (i + 1)
    | .Plus, .Plus =>
      tz_loop value arest erest hours_seen minutes_seen tz_offset (i + 1)
    | .Num v, .Num _ =>
      if hours_seen = false then
        if 2 ^ 64 ≤ v * 60 then .panic
        else if 2 ^ 64 ≤ v * 60 * 60 then .panic
        else
          match i64_checked_add tz_offset (u64_as_i64 (v * 60 * 60)) with
          | some tz' => tz_loop value arest erest true minutes_seen tz' (i + 1)
          | none => .panic
      else if minutes_seen = false then
        if 2 ^ 64 ≤ v * 60 then .panic
        else
          match i64_checked_add tz_offset (u64_as_i64 (v * 60)) with
          | some tz' => tz_loop value arest erest hours_seen true tz' (i + 1)
          | none => .panic
      else tz_loop value arest erest hours_seen minutes_seen tz_offset (i + 1)
    | provided, expected => .err (.TimezonePartMismatch i value provided expected)

/-- The part of `build_parsed_datetime` after the leading-sign peek: run the
body zip loop on `actual` from the leading field (with the already-decided
`is_positive` seeding the result record), and, when timezone tokens are
present, run the timezone zip loop (with its own optional leading `Dash` as
the offset's sign) and store its result, overwriting any offset the body
pass wrote.  `tz_offset *= -1` carries the debug overflow check (`i64::MIN`
would panic). -/
def build_rest (actual : List IntervalToken) (leading_field : DateTimeField)
    (value : List Char) (timezone_tokens : List IntervalToken)
    (is_positive : Bool) : RustResult ParsedDateTime :=
  let expected := potential_interval_tokens leading_field
  match assign_loop value actual expected leading_field 0
      { is_positive := is_positive } 0 with
  | .err e => .err e
  | .panic => .panic
  | .ok pdt =>
    if timezone_tokens ≠ [] then
      let tz_expected := potential_timezone_tokens
      let (tz_positive, tz_actual) :=
        match timezone_tokens with
        | .Dash :: rest => (false, rest)
        | _ => (true, timezone_tokens)
      match tz_loop value tz_actual tz_expected false false 0 0 with
      | .err e => .err e
      | .panic => .panic
      | .ok tz_offset =>
        if tz_positive = false then
          if tz_offset = -(2 ^ 63) then .panic
          else .ok { pdt with timezone_offset_second := some (-tz_offset) }
        else .ok { pdt with timezone_offset_second := some tz_offset }
    else .ok pdt

/-- `build_parsed_datetime(tokens, leading_field, value, timezone_tokens)`:
peek at the first body token — a leading `Dash` is consumed and makes
`is_positive` false — then continue with `build_rest`. -/
def build_parsed_datetime (tokens : List IntervalToken)
    (leading_field : DateTimeField) (value : List Char)
    (timezone_tokens : List IntervalToken) : RustResult ParsedDateTime :=
  match tokens with
  | .Dash :: rest => build_rest rest leading_field value timezone_tokens false
  | _ => build_rest tokens leading_field value timezone_tokens true

/-- Intermediate state of the main tokenizer's character loop, used to state
properties about what the scan has accumulated when it reaches a given
character. -/
structure ScanState where
  toks : List IntervalToken
  num_buf : List Char
  is_frac : Bool
  after_time : Bool
deriving DecidableEq, Repr

/-- A prefix run of `tokenize_loop`: processes the given characters exactly
as the main tokenizer does but, instead of finalizing at the end of input,
returns the reached state.  Only used on prefixes that contain no `+` (the
`+` arm of the real loop returns instead of continuing), so that arm is an
error sentinel here. -/
def scan_chars (value : List Char) (i : Nat) (st : ScanState) :
    List Char → RustResult ScanState
  | [] => .ok st
  | c :: rest =>
    if c = '-' then
      if st.num_buf ≠ [] then
        match parse_num st.num_buf i st.is_frac with
        | .ok t =>
          scan_chars value (i + 1)
            ⟨st.toks ++ [t, .Dash], [], false, st.after_time⟩ rest
        | .err e => .err e
        | .panic => .panic
      else
        scan_chars value (i + 1)
          ⟨st.toks ++ [.Dash], [], false, st.after_time⟩ rest
    else if c = ' ' then
      match parse_num st.num_buf i st.is_frac with
      | .ok t =>
        scan_chars value (i + 1)
          ⟨st.toks ++ [t, .Space], [], false, st.after_time⟩ rest
      | .err e => .err e
      | .panic => .panic
    else if c = ':' then
      match parse_num st.num_buf i st.is_frac with
      | .ok t =>
        scan_chars value (i + 1) ⟨st.toks ++ [t, .Colon], [], false, true⟩ rest
      | .err e => .err e
      | .panic => .panic
    else if c = '.' then
      match parse_num st.num_buf i st.is_frac with
      | .ok t =>
        scan_chars value (i + 1)
          ⟨st.toks ++ [t, .Dot], [], true, st.after_time⟩ rest
      | .err e => .err e
      | .panic => .panic
    else if c = '+' then .err (.TokenizerError i value c)
    else if c.isDigit then
      scan_chars value (i + 1) ⟨st.toks, st.num_buf ++ [c], st.is_frac, st.after_time⟩ rest
    else .err (.TokenizerError i value c)

/-- Value of the first `Num` token of a list, 0 when there is none (the
hours reading of a timezone token sequence). -/
def tz_first_num : List IntervalToken → Nat
  | [] => 0
  | .Num v :: _ => v
  | _ :: rest => tz_first_num rest

/-- Value of the second `Num` token of a list, 0 when there is none (the
minutes reading of a timezone token sequence). -/
def tz_second_num : List IntervalToken → Nat
  | [] => 0
  | .Num _ :: rest => tz_first_num rest
  | _ :: rest => tz_second_num rest

/-- Sign a timezone token sequence carries: −1 exactly when it begins with
`Dash`. -/
def tz_sign : List IntervalToken → Int
  | .Dash :: _ => -1
  | _ => 1

/-- Whether an error is of the `ParserError::TokenizerError` kind. -/
def ParserError.is_tokenizer_error : ParserError → Bool
  | .TokenizerError _ _ _ => true
  | _ => false

/-- Whether a run outcome is the "Too many numbers to parse as a second"
rejection. -/
def RustResult.is_too_many_seconds {α : Type} : RustResult α → Bool
  | .err (.TooManySeconds _) => true
  | _ => false

/-- A run outcome that is either a success or a `ParserError::ParserError`
kind failure: no tokenizer error and no panic. -/
def RustResult.clean {α : Type} : RustResult α → Prop
  | .ok _ => True
  | .err e => e.is_tokenizer_error = false
  | .panic => False

/-- Map over the success value of a `RustResult`. -/
def RustResult.map {α β : Type} (f : α → β) : RustResult α → RustResult β
  | .ok a => .ok (f a)
  | .err e => .err e
  | .panic => .panic

/-- C1: in `tokenize_timezone` the `-` arm clears a pending digit buffer
without flushing it: the suffix "5-" tokenizes to `[Dash]` alone, the
buffered `5` is silently discarded (the claim demands `[Num 5, Dash]`). -/
theorem tokenize_timezone_dash_discards_buffer :
    tokenize_timezone ['5', '-'] = .ok [.Dash] ∧
      .ok [.Dash] ≠ (.ok [.Num 5, .Dash] : RustResult (List IntervalToken)) := by
  constructor
  · rfl
  · decide

/-- C2: `potential_interval_tokens` does not fail on
`TimezoneOffsetSecond`; it silently falls back to offset 0 and returns the
full canonical pattern (the variant's arm carries the source's "TODO throw
an error here"). -/
theorem potential_interval_tokens_timezone_offset_second :
    potential_interval_tokens .TimezoneOffsetSecond = all_toks := rfl

/-- C3: a fractional buffer of ten digits whose value fits in a `u32` is not
rejected with an error: `10_u32.pow(10)` overflows, so the call aborts
(debug profile; in release the wrapped power yields `Nanos(0)`), never
returning a `Result` failure as the claim requires. -/
theorem tokenize_long_fraction_panics :
    tokenize_interval ['0', '.', '1', '0', '0', '0', '0', '0', '0', '0', '0', '0']
      false = .panic := by rfl

/-- C5 counterexample: "0:+1" with `include_timezone = true` reaches the `+`
legally (a `:` was seen), yet the call does not return the two token
sequences: the unconditional flush of the (empty) buffer fails with a number
parse error. -/
theorem tokenize_plus_legal_but_fails :
    tokenize_interval ['0', ':', '+', '1'] true = .err (.NumberParseError [] 0) := by
  rfl

/-- C8 counterexample: the tokenizer accepts "1-2", but re-validating the
produced tokens against the expected pattern of leading field `Second`
fails: at pair offset 1 the token is `Dash` where the pattern expects
`Dot`. -/
theorem tokenize_accepts_but_assign_rejects :
    tokenize_interval ['1', '-', '2'] false =
        .ok ([.Num 1, .Dash, .Num 2], []) ∧
      build_parsed_datetime [.Num 1, .Dash, .Num 2] .Second ['1', '-', '2'] [] =
        .err (.IntervalPartMismatch 1 ['1', '-', '2'] .Dash .Dot) := by
  constructor
  · rfl
  · rfl

/-- C7 (amended, concrete form): an input that supplies a third `Num` while
the cursor rests on `Second` — the body tokens of "1:2:3" with leading field
`Minute` — fails with a pattern mismatch at the punctuation after the
seconds value, before any second `Num` can be destined for `Second`. -/
theorem assign_third_num_hits_mismatch :
    build_parsed_datetime [.Num 1, .Colon, .Num 2, .Colon, .Num 3] .Minute
        ['1', ':', '2', ':', '3'] [] =
      .err (.IntervalPartMismatch 3 ['1', ':', '2', ':', '3'] .Colon .Dot) := by
  rfl

/-- C6 counterexample: a timezone hours value of 2562047788015216 makes
`(val * 60 * 60) as i64` wrap to a negative offset: the stored offset is
−9223372036854774016, not the claim's `h × 3600 = 9223372036854777600`. -/
theorem timezone_offset_wraps_on_large_hours :
    build_parsed_datetime [] .Year [] [.Plus, .Num 2562047788015216] =
        .ok { is_positive := true,
              timezone_offset_second := some (-9223372036854774016) } ∧
      (-9223372036854774016 : Int) ≠ 1 * (2562047788015216 * 3600 + 0 * 60) := by
  constructor
  · rfl
  · decide

theorem char_digit_le (c : Char) (h : c.isDigit = true) :
    c.toNat - ('0').toNat ≤ 9 := by
  simp only [Char.isDigit, Bool.and_eq_true, decide_eq_true_eq] at h
  obtain ⟨h1, h2⟩ := h
  have h9 : c.val.toNat ≤ ('9').val.toNat := h2
  have e9 : (('9') : Char).val.toNat = 57 := by decide
  have ht : c.toNat = c.val.toNat := rfl
  have ht0 : ('0').toNat = 48 := by decide
  omega

theorem digits_foldl_lt (n : List Char) (a : Nat)
    (h : n.all Char.isDigit = true) :
    n.foldl (fun acc c => 10 * acc + (c.toNat - ('0').toNat)) a <
      (a + 1) * 10 ^ n.length := by
  induction n generalizing a with
  | nil => simp
  | cons c l ih =>
    simp only [List.all_cons, Bool.and_eq_true] at h
    have hd := char_digit_le c h.1
    have := ih (10 * a + (c.toNat - ('0').toNat)) h.2
    have hle : (10 * a + (c.toNat - ('0').toNat) + 1) * 10 ^ l.length ≤
        (a + 1) * 10 ^ (c :: l).length := by
      simp only [List.length_cons, pow_succ]
      nlinarith [pow_pos (show 0 < 10 by norm_num) l.length]
    calc List.foldl (fun acc c => 10 * acc + (c.toNat - ('0').toNat))
          (10 * a + (c.toNat - ('0').toNat)) l <
        (10 * a + (c.toNat - ('0').toNat) + 1) * 10 ^ l.length := this
      _ ≤ (a + 1) * 10 ^ (c :: l).length := hle

theorem digitsVal_lt (n : List Char) (h : n.all Char.isDigit = true) :
    digitsVal n < 10 ^ n.length := by
  have h' := digits_foldl_lt n 0 h
  simp only [Nat.zero_add, one_mul] at h'
  exact h' 

/-- C4: a fractional buffer of `L` ASCII digits, `1 ≤ L ≤ 9`, flushes as
`Nanos(raw × 10^(9−L))` where `raw` is the buffer's numeric value: the `u32`
parse succeeds, `10^L` does not overflow, and
`1_000_000_000 / 10^L = 10^(9−L)` exactly. -/
theorem parse_num_fraction_scaling (n : List Char) (idx : Nat)
    (hdig : n.all Char.isDigit = true) (h1 : 1 ≤ n.length) (h9 : n.length ≤ 9) :
    parse_num n idx true = .ok (.Nanos (digitsVal n * 10 ^ (9 - n.length))) := by
  have hlt : digitsVal n < 10 ^ n.length := digitsVal_lt n hdig
  have hpow : (10 : Nat) ^ n.length ≤ 10 ^ 9 :=
    Nat.pow_le_pow_right (by norm_num) h9
  have h32 : digitsVal n < 2 ^ 32 := by
    calc digitsVal n < 10 ^ n.length := hlt
      _ ≤ 10 ^ 9 := hpow
      _ < 2 ^ 32 := by norm_num
  have hne : n ≠ [] := by
    cases n with
    | nil => simp at h1
    | cons c l => simp
  have hdiv : (1000000000 : Nat) / 10 ^ n.length = 10 ^ (9 - n.length) := by
    have h10 : (1000000000 : Nat) = 10 ^ 9 := by norm_num
    rw [h10, Nat.pow_div h9 (by norm_num)]
  have hprod : digitsVal n * 10 ^ (9 - n.length) < 2 ^ 32 := by
    calc digitsVal n * 10 ^ (9 - n.length) <
        10 ^ n.length * 10 ^ (9 - n.length) := by
          exact (mul_lt_mul_right (pow_pos (by norm_num) _)).mpr hlt
      _ = 10 ^ 9 := by rw [← pow_add]; congr 1; omega
      _ < 2 ^ 32 := by norm_num
  simp only [parse_num, parse_u32, if_true]
  rw [if_pos ⟨hne, hdig, h32⟩]
  simp only []
  rw [if_neg (by push_neg; calc (10:Nat) ^ n.length ≤ 10 ^ 9 := hpow
        _ < 2 ^ 32 := by norm_num)]
  rw [hdiv]
  rw [if_neg (by push_neg; exact hprod)]

theorem parse_num_fraction_scaling_witness :
    parse_num ['5'] 0 true = .ok (.Nanos 500000000) ∧
      tokenize_interval ['5', '.', '5'] false =
        .ok ([.Num 5, .Dot, .Nanos 500000000], []) := by
  refine ⟨?_, by rfl⟩
  exact (parse_num_fraction_scaling ['5'] 0 (by decide) (by decide)
    (by decide)).trans (by decide)

/-- C10: when the main tokenizer reaches `' '`, `':'` or `'.'` with an empty
digit buffer, the buffer is flushed unconditionally and the empty-string
numeric parse fails, so the whole call errors (a fraction parse error when
the fractional flag is set, a number parse error otherwise). -/
theorem tokenize_separator_empty_buffer (c : Char)
    (hc : c = ' ' ∨ c = ':' ∨ c = '.') (itz : Bool) (value : List Char)
    (toks : List IntervalToken) (is_frac after_time : Bool) (i : Nat)
    (rest : List Char) :
    tokenize_loop itz value toks [] is_frac after_time i (c :: rest) =
      .err (if is_frac then .FractionParseError [] else .NumberParseError [] i) := by
  have hnum : parse_num [] i is_frac =
      .err (if is_frac then .FractionParseError [] else .NumberParseError [] i) := by
    cases is_frac <;> simp [parse_num, parse_u32, parse_u64]
  rcases hc with h | h | h <;> subst h <;> simp [tokenize_loop, hnum]

theorem tokenize_separator_empty_buffer_witness :
    tokenize_interval [':', '3', '0'] false = .err (.NumberParseError [] 0) ∧
      tokenize_interval ['1', ' ', ' ', '2'] false =
        .err (.NumberParseError [] 2) := by
  constructor
  · exact (tokenize_separator_empty_buffer ':' (by tauto) false [':', '3', '0']
      [] false false 0 ['3', '0']).trans (by decide)
  · rfl

theorem assign_loop_is_positive (value : List Char) (toks : List IntervalToken) :
    ∀ (exp : List IntervalToken) (f : DateTimeField) (s i : Nat) (b p : Bool)
      (y mo d h mi sec na : Option Nat) (tz : Option Int),
    assign_loop value toks exp f s ⟨b, y, mo, d, h, mi, sec, na, tz⟩ i =
      (assign_loop value toks exp f s ⟨p, y, mo, d, h, mi, sec, na, tz⟩ i).map
        (fun r => { r with is_positive := b }) := by
  induction toks with
  | nil =>
    intro exp f s i b p y mo d h mi sec na tz
    simp [assign_loop, RustResult.map]
  | cons atok arest ih =>
    intro exp f s i b p y mo d h mi sec na tz
    cases exp with
    | nil => simp [assign_loop, RustResult.map]
    | cons etok erest =>
      cases atok <;> cases etok <;>
        simp [assign_loop, RustResult.map, DateTimeField.successor] <;>
        try apply ih
      case Num.Num v w =>
        cases f
        case Year =>
          simp [assign_loop, RustResult.map, DateTimeField.successor]
          apply ih
        case Month =>
          by_cases hv : v = 0
          · simp [assign_loop, RustResult.map, DateTimeField.successor, hv]
          · simp [assign_loop, RustResult.map, DateTimeField.successor, hv]
            apply ih
        case Day =>
          by_cases hv : v = 0
          · simp [assign_loop, RustResult.map, DateTimeField.successor, hv]
          · simp [assign_loop, RustResult.map, DateTimeField.successor, hv]
            apply ih
        case Hour =>
          simp [assign_loop, RustResult.map, DateTimeField.successor]
          apply ih
        case Minute =>
          simp [assign_loop, RustResult.map, DateTimeField.successor]
          apply ih
        case Second =>
          by_cases hs : s = 0
          · simp [assign_loop, RustResult.map, DateTimeField.successor, hs]
            apply ih
          · simp [assign_loop, RustResult.map, DateTimeField.successor, hs]
        case TimezoneOffsetSecond =>
          simp [assign_loop, RustResult.map, DateTimeField.successor]
      case Nanos.Nanos v w =>
        by_cases hs : s = 1
        · simp [assign_loop, RustResult.map, hs]
          apply ih
        · simp [assign_loop, RustResult.map, hs]

theorem build_rest_is_positive (actual : List IntervalToken)
    (lf : DateTimeField) (value : List Char) (tz : List IntervalToken) :
    build_rest actual lf value tz false =
      (build_rest actual lf value tz true).map
        (fun r => { r with is_positive := false }) := by
  simp only [build_rest]
  rw [assign_loop_is_positive value actual (potential_interval_tokens lf) lf
    0 0 false true none none none none none none none none]
  cases hres : assign_loop value actual (potential_interval_tokens lf) lf 0
      { is_positive := true } 0 with
  | err e => simp [RustResult.map]
  | panic => simp [RustResult.map]
  | ok r =>
    obtain ⟨rp, ry, rmo, rd, rh, rmi, rsec, rna, rtz⟩ := r
    cases tz with
    | nil => simp [RustResult.map]
    | cons t2 ts2 =>
      cases t2 <;> simp [RustResult.map] <;> (try split) <;>
        (try split_ifs) <;> simp [RustResult.map]

/-- C9: `assign([Dash, Num 5], Month, ..)` yields `is_positive = false`,
`month = some 5` and every other field unset; in general a leading `Dash`
body token is consumed solely to flip `is_positive` to false: the rest of
the run is identical to the run without the leading `Dash` (so fields no
token writes keep their defaults), only the result's `is_positive` differs. -/
theorem assign_leading_dash_frame :
    build_parsed_datetime [.Dash, .Num 5] .Month ['-', '5'] [] =
        .ok { is_positive := false, month := some 5 } ∧
      ∀ (toks : List IntervalToken) (lf : DateTimeField) (value : List Char)
        (tz : List IntervalToken), toks.head? ≠ some .Dash →
        build_parsed_datetime (.Dash :: toks) lf value tz =
          (build_parsed_datetime toks lf value tz).map
            (fun pdt => { pdt with is_positive := false }) := by
  constructor
  · rfl
  · intro toks lf value tz hhead
    have h1 : build_parsed_datetime (.Dash :: toks) lf value tz =
        build_rest toks lf value tz false := rfl
    have h2 : build_parsed_datetime toks lf value tz =
        build_rest toks lf value tz true := by
      cases toks with
      | nil => rfl
      | cons t ts => cases t <;> first | rfl | simp at hhead
    rw [h1, h2, build_rest_is_positive]

theorem assign_leading_dash_frame_witness :
    build_parsed_datetime [.Dash, .Num 7] .Year [] [] =
      .ok { is_positive := false, year := some 7 } := by
  have h := assign_leading_dash_frame.2 [.Num 7] .Year [] [] (by decide)
  rw [h]
  rfl

theorem assign_loop_clean (value : List Char) (toks : List IntervalToken) :
    ∀ (exp : List IntervalToken) (f : DateTimeField) (s : Nat)
      (pdt : ParsedDateTime) (i : Nat), f ≠ .TimezoneOffsetSecond →
    (assign_loop value toks exp f s pdt i).clean := by
  induction toks with
  | nil =>
    intro exp f s pdt i hf
    simp [assign_loop, RustResult.clean]
  | cons atok arest ih =>
    intro exp f s pdt i hf
    cases exp with
    | nil => simp [assign_loop, RustResult.clean]
    | cons etok erest =>
      cases atok <;> cases etok <;>
        simp only [assign_loop, RustResult.clean,
          ParserError.is_tokenizer_error] <;>
        try exact ih _ _ _ _ _ hf
      case Num.Num v w =>
        cases f
        case Year =>
          simp only [DateTimeField.successor]
          exact ih _ _ _ _ _ (by decide)
        case Month =>
          by_cases hv : v < 1
          · simp [hv, RustResult.clean, ParserError.is_tokenizer_error]
          · simp only [hv, if_false, if_neg, DateTimeField.successor,
              reduceCtorEq, reduceIte]
            exact ih _ _ _ _ _ (by decide)
        case Day =>
          by_cases hv : v < 1
          · simp [hv, RustResult.clean, ParserError.is_tokenizer_error]
          · simp only [hv, if_false, if_neg, DateTimeField.successor,
              reduceCtorEq, reduceIte]
            exact ih _ _ _ _ _ (by decide)
        case Hour =>
          simp only [DateTimeField.successor]
          exact ih _ _ _ _ _ (by decide)
        case Minute =>
          simp only [DateTimeField.successor]
          exact ih _ _ _ _ _ (by decide)
        case Second =>
          by_cases hs : s = 0
          · simp only [hs, reduceIte]
            exact ih _ _ _ _ _ (by decide)
          · simp [hs, RustResult.clean, ParserError.is_tokenizer_error]
        case TimezoneOffsetSecond => exact absurd rfl hf
      case Nanos.Nanos v w =>
        by_cases hs : s = 1
        · simp only [hs, reduceIte]
          exact ih _ _ _ _ _ hf
        · simp [hs, RustResult.clean, ParserError.is_tokenizer_error]

theorem build_rest_clean (actual : List IntervalToken) (lf : DateTimeField)
    (value : List Char) (b : Bool) (hlf : lf ≠ .TimezoneOffsetSecond) :
    (build_rest actual lf value [] b).clean := by
  have h := assign_loop_clean value actual (potential_interval_tokens lf) lf 0
    { is_positive := b } 0 hlf
  simp only [build_rest]
  cases hres : assign_loop value actual (potential_interval_tokens lf) lf 0
      { is_positive := b } 0 with
  | err e =>
    rw [hres] at h
    simpa [RustResult.clean] using h
  | panic =>
    rw [hres] at h
    simp [RustResult.clean] at h
  | ok r => simp [RustResult.clean]

/-- C8 (amended): tokenizer acceptance does not guarantee assigner success,
but for any legal leading field, tokenizer-accepted body tokens (scanned
with `include_timezone = false`, so with no timezone tokens) are re-validated
without ever producing a tokenizer-kind error or a panic: the assigner
either succeeds or fails with a `ParserError`-kind error. -/
theorem tokenize_then_assign_clean (s : List Char) (toks : List IntervalToken)
    (lf : DateTimeField) (value : List Char)
    (_htok : tokenize_interval s false = .ok (toks, []))
    (hlf : lf ≠ .TimezoneOffsetSecond) :
    (build_parsed_datetime toks lf value []).clean := by
  cases toks with
  | nil => exact build_rest_clean [] lf value true hlf
  | cons t ts =>
    cases t <;>
      first
        | exact build_rest_clean ts lf value false hlf
        | exact build_rest_clean (.Space :: ts) lf value true hlf
        | exact build_rest_clean (.Colon :: ts) lf value true hlf
        | exact build_rest_clean (.Dot :: ts) lf value true hlf
        | exact build_rest_clean (.Plus :: ts) lf value true hlf
        | (rename_i v; exact build_rest_clean (.Num v :: ts) lf value true hlf)
        | (rename_i v; exact build_rest_clean (.Nanos v :: ts) lf value true hlf)

theorem tokenize_then_assign_clean_witness :
    (build_parsed_datetime [.Num 1] .Year ['1'] []).clean :=
  tokenize_then_assign_clean ['1'] [.Num 1] .Year ['1'] (by rfl) (by decide)

/-- Number of `Num` tokens in a pattern suffix. -/
def num_count : List IntervalToken → Nat
  | [] => 0
  | .Num _ :: rest => num_count rest + 1
  | .Dash :: rest => num_count rest
  | .Space :: rest => num_count rest
  | .Colon :: rest => num_count rest
  | .Dot :: rest => num_count rest
  | .Plus :: rest => num_count rest
  | .Nanos _ :: rest => num_count rest

/-- How many fields lie from a given field through `Second` in the canonical
order (the number of `Num` slots its expected pattern holds). -/
def fields_through_second : DateTimeField → Nat
  | .Year => 6
  | .Month => 5
  | .Day => 4
  | .Hour => 3
  | .Minute => 2
  | .Second => 1
  | .TimezoneOffsetSecond => 0

theorem assign_loop_no_too_many (value : List Char) (toks : List IntervalToken) :
    ∀ (exp : List IntervalToken) (f : DateTimeField) (s : Nat)
      (pdt : ParsedDateTime) (i : Nat),
    (f = .TimezoneOffsetSecond ∨ num_count exp + s ≤ fields_through_second f) →
    (assign_loop value toks exp f s pdt i).is_too_many_seconds = false := by
  induction toks with
  | nil =>
    intro exp f s pdt i hinv
    simp [assign_loop, RustResult.is_too_many_seconds]
  | cons atok arest ih =>
    intro exp f s pdt i hinv
    cases exp with
    | nil => simp [assign_loop, RustResult.is_too_many_seconds]
    | cons etok erest =>
      cases atok <;> cases etok <;>
        simp only [assign_loop, RustResult.is_too_many_seconds] <;>
        try
          (apply ih
           rcases hinv with h | h
           · exact Or.inl h
           · right
             simp only [num_count] at h ⊢
             omega)
      case Num.Num v w =>
        have hnum : num_count (IntervalToken.Num w :: erest) =
            num_count erest + 1 := rfl
        cases f
        case Year =>
          simp only [DateTimeField.successor]
          apply ih
          rcases hinv with h | h
          · exact absurd h (by decide)
          · right
            simp only [fields_through_second] at h ⊢
            omega
        case Month =>
          by_cases hv : v < 1
          · simp [hv, RustResult.is_too_many_seconds]
          · simp only [hv, if_false, reduceIte, DateTimeField.successor]
            apply ih
            rcases hinv with h | h
            · exact absurd h (by decide)
            · right
              simp only [fields_through_second] at h ⊢
              omega
        case Day =>
          by_cases hv : v < 1
          · simp [hv, RustResult.is_too_many_seconds]
          · simp only [hv, if_false, reduceIte, DateTimeField.successor]
            apply ih
            rcases hinv with h | h
            · exact absurd h (by decide)
            · right
              simp only [fields_through_second] at h ⊢
              omega
        case Hour =>
          simp only [DateTimeField.successor]
          apply ih
          rcases hinv with h | h
          · exact absurd h (by decide)
          · right
            simp only [fields_through_second] at h ⊢
            omega
        case Minute =>
          simp only [DateTimeField.successor]
          apply ih
          rcases hinv with h | h
          · exact absurd h (by decide)
          · right
            simp only [fields_through_second] at h ⊢
            omega
        case Second =>
          rcases hinv with h | h
          · exact absurd h (by decide)
          · by_cases hs : s = 0
            · simp only [hs, reduceIte]
              apply ih
              right
              simp only [fields_through_second] at h ⊢
              omega
            · exfalso
              simp only [fields_through_second, hnum] at h
              omega
        case TimezoneOffsetSecond =>
          simp [DateTimeField.successor, RustResult.is_too_many_seconds]
      case Nanos.Nanos v w =>
        by_cases hs : s = 1
        · simp only [hs, reduceIte]
          apply ih
          rcases hinv with h | h
          · exact Or.inl h
          · right
            simp only [num_count] at h ⊢
            omega
        · simp [hs, RustResult.is_too_many_seconds]

theorem tz_loop_no_too_many (value : List Char) (toks : List IntervalToken) :
    ∀ (exp : List IntervalToken) (hs ms : Bool) (off : Int) (i : Nat),
    (tz_loop value toks exp hs ms off i).is_too_many_seconds = false := by
  induction toks with
  | nil =>
    intro exp hs ms off i
    simp [tz_loop, RustResult.is_too_many_seconds]
  | cons atok arest ih =>
    intro exp hs ms off i
    cases exp with
    | nil => simp [tz_loop, RustResult.is_too_many_seconds]
    | cons etok erest =>
      cases atok <;> cases etok <;>
        simp only [tz_loop] <;>
        first
          | apply ih
          | rfl
          | skip
      case Num.Num v w =>
        cases hs with
        | false =>
          rw [if_pos rfl]
          split_ifs with h1 h2
          · rfl
          · rfl
          · cases hadd : i64_checked_add off (u64_as_i64 (v * 60 * 60)) with
            | none => rfl
            | some tz' => apply ih
        | true =>
          rw [if_neg (by simp)]
          cases ms with
          | false =>
            rw [if_pos rfl]
            split_ifs with h1
            · rfl
            · cases hadd : i64_checked_add off (u64_as_i64 (v * 60)) with
              | none => rfl
              | some tz' => apply ih
          | true =>
            rw [if_neg (by simp)]
            apply ih


theorem build_no_too_many (toks : List IntervalToken) (lf : DateTimeField)
    (value : List Char) (tz : List IntervalToken) :
    (build_parsed_datetime toks lf value tz).is_too_many_seconds = false := by
  have hrest : ∀ (actual : List IntervalToken) (b : Bool),
      (build_rest actual lf value tz b).is_too_many_seconds = false := by
    intro actual b
    have hbody := assign_loop_no_too_many value actual
      (potential_interval_tokens lf) lf 0 { is_positive := b } 0 (by
        cases lf <;> simp [num_count, fields_through_second,
          potential_interval_tokens, field_offset, all_toks])
    simp only [build_rest]
    cases hres : assign_loop value actual (potential_interval_tokens lf) lf 0
        { is_positive := b } 0 with
    | err e =>
      rw [hres] at hbody
      exact hbody
    | panic => rfl
    | ok r =>
      cases tz with
      | nil => rfl
      | cons t2 ts2 =>
        cases t2 <;>
          simp only [ne_eq, reduceCtorEq, not_false_eq_true, if_true,
            List.cons_ne_self, reduceIte] <;>
          split <;>
          first
            | rfl
            | (split_ifs <;> rfl)
            | (next e heq =>
                have h2 : (RustResult.err e :
                    RustResult Int).is_too_many_seconds = false := by
                  rw [← heq]
                  exact tz_loop_no_too_many value _
                    potential_timezone_tokens false false 0 0
                cases e <;>
                  first
                    | rfl
                    | (exfalso
                       simp [RustResult.is_too_many_seconds] at h2))
  cases toks with
  | nil => exact hrest [] true
  | cons t ts =>
    cases t <;> simp only [build_parsed_datetime] <;> apply hrest

/-- C7 (amended): no body token sequence and leading field ever assigns two
`Num` tokens to the `Second` field — the "Too many numbers to parse as a
second" rejection branch is unreachable, because the expected pattern holds
exactly one `Num` slot per field from the leading field through `Second`,
so the cursor reaches `Second` only at the pattern's final `Num` slot; a
`Second` value is therefore assigned at most once. -/
theorem assign_second_twice_unreachable :
    ∀ (toks : List IntervalToken) (lf : DateTimeField) (value : List Char)
      (tz : List IntervalToken),
    (build_parsed_datetime toks lf value tz).is_too_many_seconds = false :=
  fun toks lf value tz => build_no_too_many toks lf value tz

/-- C7 counterexample to the claim as stated: there is no input on which the
Field Assigner rejects a second `Num` destined for `Second` — the existence
half of the claim is false. -/
theorem assign_second_twice_exists_false :
    (∃ (toks : List IntervalToken) (lf : DateTimeField) (value : List Char)
      (tz : List IntervalToken) (v : Nat),
      build_parsed_datetime toks lf value tz = .err (.TooManySeconds v)) =
      False := by
  apply eq_false
  rintro ⟨toks, lf, value, tz, v, h⟩
  have hno := build_no_too_many toks lf value tz
  rw [h] at hno
  simp [RustResult.is_too_many_seconds] at hno

theorem tz_loop_exp_nil (value : List Char) (toks : List IntervalToken)
    (hs ms : Bool) (off0 : Int) (i : Nat) :
    tz_loop value toks [] hs ms off0 i = .ok off0 := by
  cases toks <;> simp [tz_loop]

theorem tz_loop_min (value : List Char) (r3 : List IntervalToken)
    (off0 : Int) (i : Nat) (off : Int) (h0 : 0 ≤ off0)
    (hb : off0 + (tz_first_num r3 : Int) * 60 < 2 ^ 63)
    (hok : tz_loop value r3 [.Num 0] true false off0 i = .ok off) :
    off = off0 + (tz_first_num r3 : Int) * 60 := by
  have p63 : (2 : Int) ^ 63 = 9223372036854775808 := by norm_num
  cases r3 with
  | nil =>
    simp [tz_loop] at hok
    simp [tz_first_num]
    omega
  | cons t3 r4 =>
    cases t3 with
    | Dash => simp [tz_loop] at hok
    | Space => simp [tz_loop] at hok
    | Colon => simp [tz_loop] at hok
    | Dot => simp [tz_loop] at hok
    | Plus => simp [tz_loop] at hok
    | Nanos m => simp [tz_loop] at hok
    | Num m =>
      simp only [tz_loop, reduceCtorEq, reduceIte] at hok
      simp only [tz_first_num] at hb ⊢
      have hm : ¬ (2 ^ 64 ≤ m * 60) := by
        have p64 : (2 : Nat) ^ 64 = 18446744073709551616 := by norm_num
        rw [p64]
        rw [p63] at hb
        omega
      have hlt : (m * 60 : Nat) < 2 ^ 63 := by
        have p63n : (2 : Nat) ^ 63 = 9223372036854775808 := by norm_num
        rw [p63n]
        rw [p63] at hb
        omega
      have hcast : u64_as_i64 (m * 60) = ((m * 60 : Nat) : Int) := by
        simp only [u64_as_i64]
        rw [if_pos hlt]
      have hadd : i64_checked_add off0 ((m * 60 : Nat) : Int) =
          some (off0 + ((m * 60 : Nat) : Int)) := by
        have hrange : -(2 ^ 63) ≤ off0 + ((m * 60 : Nat) : Int) ∧
            off0 + ((m * 60 : Nat) : Int) < 2 ^ 63 := by
          constructor
          · have hnn : (0 : Int) ≤ ((m * 60 : Nat) : Int) := Int.natCast_nonneg _
            omega
          · push_cast
            push_cast at hb
            omega
        simp only [i64_checked_add]
        rw [if_pos hrange]
      rw [if_neg hm, hcast, hadd] at hok
      simp [tz_loop_exp_nil] at hok
      omega

theorem tz_loop_col (value : List Char) (r2 : List IntervalToken)
    (off0 : Int) (i : Nat) (off : Int) (h0 : 0 ≤ off0)
    (hb : off0 + (tz_first_num r2 : Int) * 60 < 2 ^ 63)
    (hok : tz_loop value r2 [.Colon, .Num 0] true false off0 i = .ok off) :
    off = off0 + (tz_first_num r2 : Int) * 60 := by
  cases r2 with
  | nil =>
    simp [tz_loop] at hok
    simp [tz_first_num]
    omega
  | cons t2 r3 =>
    cases t2 with
    | Dash => simp [tz_loop] at hok
    | Space => simp [tz_loop] at hok
    | Dot => simp [tz_loop] at hok
    | Plus => simp [tz_loop] at hok
    | Num m => simp [tz_loop] at hok
    | Nanos m => simp [tz_loop] at hok
    | Colon =>
      simp only [tz_loop, reduceCtorEq, reduceIte] at hok
      simp only [tz_first_num] at hb ⊢
      exact tz_loop_min value r3 off0 (i + 1) off h0 hb hok

theorem tz_loop_hours (value : List Char) (r1 : List IntervalToken) (i : Nat)
    (off : Int)
    (hb : (tz_first_num r1 : Int) * 3600 + (tz_second_num r1 : Int) * 60 <
      2 ^ 63)
    (hok : tz_loop value r1 [.Num 0, .Colon, .Num 0] false false 0 i =
      .ok off) :
    off = (tz_first_num r1 : Int) * 3600 + (tz_second_num r1 : Int) * 60 := by
  have p63 : (2 : Int) ^ 63 = 9223372036854775808 := by norm_num
  cases r1 with
  | nil =>
    simp [tz_loop] at hok
    simp [tz_first_num, tz_second_num]
    omega
  | cons t1 r2 =>
    cases t1 with
    | Dash => simp [tz_loop] at hok
    | Space => simp [tz_loop] at hok
    | Colon => simp [tz_loop] at hok
    | Dot => simp [tz_loop] at hok
    | Plus => simp [tz_loop] at hok
    | Nanos m => simp [tz_loop] at hok
    | Num h =>
      simp only [tz_loop, reduceCtorEq, reduceIte] at hok
      simp only [tz_first_num, tz_second_num] at hb ⊢
      have hbn : (h : Int) * 3600 + (tz_first_num r2 : Int) * 60 <
          9223372036854775808 := by rw [p63] at hb; exact hb
      have hm60 : ¬ (2 ^ 64 ≤ h * 60) := by
        have p64 : (2 : Nat) ^ 64 = 18446744073709551616 := by norm_num
        rw [p64]
        omega
      have hm3600 : ¬ (2 ^ 64 ≤ h * 60 * 60) := by
        have p64 : (2 : Nat) ^ 64 = 18446744073709551616 := by norm_num
        rw [p64]
        omega
      have hlt : (h * 60 * 60 : Nat) < 2 ^ 63 := by
        have p63n : (2 : Nat) ^ 63 = 9223372036854775808 := by norm_num
        rw [p63n]
        omega
      have hcast : u64_as_i64 (h * 60 * 60) = ((h * 60 * 60 : Nat) : Int) := by
        simp only [u64_as_i64]
        rw [if_pos hlt]
      have hadd : i64_checked_add 0 ((h * 60 * 60 : Nat) : Int) =
          some (0 + ((h * 60 * 60 : Nat) : Int)) := by
        have hrange : -(2 ^ 63) ≤ (0 : Int) + ((h * 60 * 60 : Nat) : Int) ∧
            (0 : Int) + ((h * 60 * 60 : Nat) : Int) < 2 ^ 63 := by
          constructor
          · have hnn : (0 : Int) ≤ ((h * 60 * 60 : Nat) : Int) :=
              Int.natCast_nonneg _
            omega
          · push_cast
            push_cast at hbn
            omega
        simp only [i64_checked_add]
        rw [if_pos hrange]
      rw [if_neg hm60, if_neg hm3600, hcast, hadd] at hok
      change tz_loop value r2 [.Colon, .Num 0] true false
        (0 + ((h * 60 * 60 : Nat) : Int)) (i + 1) = .ok off at hok
      have h0' : (0 : Int) ≤ 0 + ((h * 60 * 60 : Nat) : Int) := by positivity
      have hb' : (0 + ((h * 60 * 60 : Nat) : Int)) +
          (tz_first_num r2 : Int) * 60 < 2 ^ 63 := by
        push_cast
        push_cast at hbn
        omega
      have hcol := tz_loop_col value r2 _ (i + 1) off h0' hb' hok
      push_cast at hcol ⊢
      omega

theorem tz_loop_suffix (value : List Char) (rest : List IntervalToken)
    (i : Nat) (off : Int)
    (hb : (tz_first_num rest : Int) * 3600 + (tz_second_num rest : Int) * 60 <
      2 ^ 63)
    (hok : tz_loop value rest potential_timezone_tokens false false 0 i =
      .ok off) :
    off = (tz_first_num rest : Int) * 3600 +
      (tz_second_num rest : Int) * 60 := by
  simp only [potential_timezone_tokens] at hok
  cases rest with
  | nil =>
    simp [tz_loop] at hok
    simp [tz_first_num, tz_second_num]
    omega
  | cons t0 r1 =>
    cases t0 with
    | Dash => simp [tz_loop] at hok
    | Space => simp [tz_loop] at hok
    | Colon => simp [tz_loop] at hok
    | Dot => simp [tz_loop] at hok
    | Num h => simp [tz_loop] at hok
    | Nanos m => simp [tz_loop] at hok
    | Plus =>
      simp only [tz_loop] at hok
      simp only [tz_first_num, tz_second_num] at hb ⊢
      exact tz_loop_hours value r1 (i + 1) off hb hok

/-- C6 (amended): for every non-empty timezone token sequence the Timezone
Assigner accepts, the stored `timezone_offset_second` equals
`s × (h × 3600 + m × 60)` — `h` the first `Num` value (0 when none), `m` the
second (0 when absent), later `Num`s ignored, `s = −1` exactly when the
sequence begins with `Dash` — provided `h × 3600 + m × 60 < 2^63`; the
contributions are computed in unsigned 64-bit arithmetic and cast to signed
64-bit, so larger values panic on overflow (debug) or wrap to a negative
offset instead.  The result overwrites any offset the body pass wrote. -/
theorem timezone_offset_formula (toks : List IntervalToken)
    (lf : DateTimeField) (value : List Char) (tzToks : List IntervalToken)
    (pdt : ParsedDateTime) (htz : tzToks ≠ [])
    (hb : (tz_first_num tzToks : Int) * 3600 +
      (tz_second_num tzToks : Int) * 60 < 2 ^ 63)
    (hok : build_parsed_datetime toks lf value tzToks = .ok pdt) :
    pdt.timezone_offset_second =
      some (tz_sign tzToks * ((tz_first_num tzToks : Int) * 3600 +
        (tz_second_num tzToks : Int) * 60)) := by
  obtain ⟨actual, b, heqb⟩ : ∃ actual b,
      build_parsed_datetime toks lf value tzToks =
        build_rest actual lf value tzToks b := by
    cases toks with
    | nil => exact ⟨[], true, rfl⟩
    | cons t ts => cases t <;> exact ⟨_, _, rfl⟩
  rw [heqb] at hok
  simp only [build_rest] at hok
  cases hres : assign_loop value actual (potential_interval_tokens lf) lf 0
      { is_positive := b } 0 with
  | err e =>
    rw [hres] at hok
    exact absurd hok (by simp)
  | panic =>
    rw [hres] at hok
    exact absurd hok (by simp)
  | ok r =>
    rw [hres] at hok
    cases tzToks with
    | nil => exact absurd rfl htz
    | cons t2 ts2 =>
      cases t2
      case Dash =>
        simp only [ne_eq, reduceCtorEq, not_false_eq_true, eq_self_iff_true,
          if_true, reduceIte] at hok
        split at hok
        next e heq => exact absurd hok (by simp)
        next heq => exact absurd hok (by simp)
        next off heq =>
          have hb' : (tz_first_num ts2 : Int) * 3600 +
              (tz_second_num ts2 : Int) * 60 < 2 ^ 63 := by
            simpa [tz_first_num, tz_second_num] using hb
          have hoff := tz_loop_suffix value ts2 0 off hb' heq
          have hnn : (0 : Int) ≤ off := by
            rw [hoff]
            have h1 := Int.natCast_nonneg (tz_first_num ts2)
            have h2 := Int.natCast_nonneg (tz_second_num ts2)
            omega
          have hne : off ≠ -(2 ^ 63) := by
            have hlt : -((2 : Int) ^ 63) < 0 := by norm_num
            omega
          rw [if_neg hne] at hok
          obtain rfl : ({ r with timezone_offset_second := some (-off) } :
              ParsedDateTime) = pdt := by simpa using hok
          simp only [tz_sign, tz_first_num, tz_second_num]
          rw [hoff]
          simp
      case Plus =>
        simp only [ne_eq, reduceCtorEq, not_false_eq_true, eq_self_iff_true,
          if_true, reduceIte] at hok
        split at hok
        next e heq => exact absurd hok (by simp)
        next heq => exact absurd hok (by simp)
        next off heq =>
          have hoff := tz_loop_suffix value (.Plus :: ts2) 0 off hb heq
          obtain rfl : ({ r with timezone_offset_second := some off } :
              ParsedDateTime) = pdt := by simpa using hok
          simp only [tz_sign]
          rw [hoff]
          simp only [tz_first_num, tz_second_num, one_mul]
      all_goals simp [tz_loop, potential_timezone_tokens] at hok

theorem timezone_offset_formula_witness :
    build_parsed_datetime [] .Year [] [.Plus, .Num 5, .Colon, .Num 15] =
        .ok { is_positive := true, timezone_offset_second := some 18900 } ∧
      ({ is_positive := true, timezone_offset_second := some 18900 } :
        ParsedDateTime).timezone_offset_second = some 18900 := by
  refine ⟨by rfl, ?_⟩
  have h := timezone_offset_formula [] .Year []
    [.Plus, .Num 5, .Colon, .Num 15]
    { is_positive := true, timezone_offset_second := some 18900 }
    (by decide) (by norm_num [tz_first_num, tz_second_num]) (by rfl)
  exact h.trans (by norm_num [tz_sign, tz_first_num, tz_second_num])

theorem tokenize_loop_append (itz : Bool) (orig : List Char)
    (p : List Char) :
    ∀ (q : List Char) (toks : List IntervalToken) (buf : List Char)
      (is_frac after_time : Bool) (i : Nat), ('+') ∉ p →
    tokenize_loop itz orig toks buf is_frac after_time i (p ++ q) =
      (match scan_chars orig i ⟨toks, buf, is_frac, after_time⟩ p with
        | .ok st => tokenize_loop itz orig st.toks st.num_buf st.is_frac
            st.after_time (i + p.length) q
        | .err e => .err e
        | .panic => .panic) := by
  induction p with
  | nil =>
    intro q toks buf is_frac after_time i hplus
    simp [scan_chars]
  | cons c p' ih =>
    intro q toks buf is_frac after_time i hplus
    have hc : c ≠ '+' := by
      intro hcon
      exact hplus (hcon ▸ List.mem_cons_self c p')
    have h2 : ('+') ∉ p' := fun hmem => hplus (List.mem_cons_of_mem c hmem)
    simp only [List.cons_append, List.length_cons]
    rw [show i + (p'.length + 1) = (i + 1) + p'.length from by omega]
    simp only [tokenize_loop, scan_chars]
    by_cases hd : c = '-'
    · rw [if_pos hd, if_pos hd]
      by_cases hbuf : buf ≠ []
      · rw [if_pos hbuf, if_pos (show (⟨toks, buf, is_frac, after_time⟩ :
          ScanState).num_buf ≠ [] from hbuf)]
        cases hp : parse_num buf i is_frac with
        | ok t =>
          simp only []
          exact ih q (toks ++ [t, .Dash]) [] false after_time (i + 1) h2
        | err e => simp only []
        | panic => simp only []
      · rw [if_neg hbuf, if_neg (show ¬ (⟨toks, buf, is_frac, after_time⟩ :
          ScanState).num_buf ≠ [] from hbuf)]
        exact ih q (toks ++ [.Dash]) [] false after_time (i + 1) h2
    · rw [if_neg hd, if_neg hd]
      by_cases hsp : c = ' '
      · rw [if_pos hsp, if_pos hsp]
        cases hp : parse_num buf i is_frac with
        | ok t =>
          simp only []
          exact ih q (toks ++ [t, .Space]) [] false after_time (i + 1) h2
        | err e => simp only []
        | panic => simp only []
      · rw [if_neg hsp, if_neg hsp]
        by_cases hco : c = ':'
        · rw [if_pos hco, if_pos hco]
          cases hp : parse_num buf i is_frac with
          | ok t =>
            simp only []
            exact ih q (toks ++ [t, .Colon]) [] false true (i + 1) h2
          | err e => simp only []
          | panic => simp only []
        · rw [if_neg hco, if_neg hco]
          by_cases hdot : c = '.'
          · rw [if_pos hdot, if_pos hdot]
            cases hp : parse_num buf i is_frac with
            | ok t =>
              simp only []
              exact ih q (toks ++ [t, .Dot]) [] true after_time (i + 1) h2
            | err e => simp only []
            | panic => simp only []
          · rw [if_neg hdot, if_neg hdot, if_neg hc, if_neg hc]
            by_cases hdig : c.isDigit
            · rw [if_pos hdig, if_pos hdig]
              exact ih q toks (buf ++ [c]) is_frac after_time (i + 1) h2
            · rw [if_neg hdig, if_neg hdig]

theorem scan_chars_after_time (orig : List Char) (p : List Char) :
    ∀ (i : Nat) (st st' : ScanState),
    scan_chars orig i st p = .ok st' →
    (st'.after_time = true ↔ (st.after_time = true ∨ ':' ∈ p)) := by
  induction p with
  | nil =>
    intro i st st' h
    simp [scan_chars] at h
    subst h
    simp
  | cons c p' ih =>
    intro i st st' h
    simp only [scan_chars] at h
    by_cases hd : c = '-'
    · rw [if_pos hd] at h
      subst hd
      by_cases hbuf : st.num_buf ≠ []
      · rw [if_pos hbuf] at h
        cases hp : parse_num st.num_buf i st.is_frac with
        | ok t =>
          rw [hp] at h
          simp only [] at h
          have := ih (i + 1) _ _ h
          simpa using this
        | err e => rw [hp] at h; exact absurd h (by simp)
        | panic => rw [hp] at h; exact absurd h (by simp)
      · rw [if_neg hbuf] at h
        have := ih (i + 1) _ _ h
        simpa using this
    · rw [if_neg hd] at h
      by_cases hsp : c = ' '
      · rw [if_pos hsp] at h
        subst hsp
        cases hp : parse_num st.num_buf i st.is_frac with
        | ok t =>
          rw [hp] at h
          simp only [] at h
          have := ih (i + 1) _ _ h
          simpa using this
        | err e => rw [hp] at h; exact absurd h (by simp)
        | panic => rw [hp] at h; exact absurd h (by simp)
      · rw [if_neg hsp] at h
        by_cases hco : c = ':'
        · rw [if_pos hco] at h
          subst hco
          cases hp : parse_num st.num_buf i st.is_frac with
          | ok t =>
            rw [hp] at h
            simp only [] at h
            have := ih (i + 1) _ _ h
            simp only [List.mem_cons] at this ⊢
            simp at this
            simp [this]
          | err e => rw [hp] at h; exact absurd h (by simp)
          | panic => rw [hp] at h; exact absurd h (by simp)
        · rw [if_neg hco] at h
          by_cases hdot : c = '.'
          · rw [if_pos hdot] at h
            subst hdot
            cases hp : parse_num st.num_buf i st.is_frac with
            | ok t =>
              rw [hp] at h
              simp only [] at h
              have := ih (i + 1) _ _ h
              simpa using this
            | err e => rw [hp] at h; exact absurd h (by simp)
            | panic => rw [hp] at h; exact absurd h (by simp)
          · rw [if_neg hdot] at h
            by_cases hpl : c = '+'
            · rw [if_pos hpl] at h
              exact absurd h (by simp)
            · rw [if_neg hpl] at h
              by_cases hdig : c.isDigit
              · rw [if_pos hdig] at h
                have := ih (i + 1) _ _ h
                simp only [List.mem_cons] at this ⊢
                constructor
                · intro ha
                  rcases (this.mp ha) with h1 | h1
                  · exact Or.inl h1
                  · exact Or.inr (Or.inr h1)
                · intro ha
                  apply this.mpr
                  rcases ha with h1 | h1 | h1
                  · exact Or.inl h1
                  · exact absurd h1.symm hco
                  · exact Or.inr h1
              · rw [if_neg hdig] at h
                exact absurd h (by simp)

theorem tokenize_loop_plus (itz : Bool) (orig : List Char)
    (toks : List IntervalToken) (buf : List Char) (is_frac after_time : Bool)
    (i : Nat) (rest : List Char) :
    tokenize_loop itz orig toks buf is_frac after_time i ('+' :: rest) =
      (if itz ≠ true ∨ after_time ≠ true then
        .err (.TokenizerError i orig '+')
      else
        match parse_num buf 0 is_frac with
        | .ok t =>
          match tokenize_timezone ('+' :: rest) with
          | .ok timezone_toks => .ok (toks ++ [t], timezone_toks)
          | .err e => .err e
          | .panic => .panic
        | .err e => .err e
        | .panic => .panic) := by
  rfl

/-- C5 (amended): when the main tokenizer reaches a `+` after scanning a
`+`-free prefix `p` to state `st`, it fails with a `TokenizeError` at the
`+` exactly when `include_timezone` is false or no `:` occurs in `p` (the
time-value flag is set exactly by `:`); when the `+` is legal the current
buffer is flushed (which itself fails on an empty or unparsable buffer) and
the rest of the input from the `+` is tokenized as the timezone suffix
(which may also fail); when both succeed the call returns immediately with
both token sequences. -/
theorem tokenize_plus_behavior (itz : Bool) (p rest : List Char)
    (st : ScanState) (hplus : ('+') ∉ p)
    (hscan : scan_chars (p ++ '+' :: rest) 0 ⟨[], [], false, false⟩ p =
      .ok st) :
    (¬ (itz = true ∧ (':') ∈ p) →
      tokenize_interval (p ++ '+' :: rest) itz =
        .err (.TokenizerError p.length (p ++ '+' :: rest) '+')) ∧
    ((itz = true ∧ (':') ∈ p) →
      tokenize_interval (p ++ '+' :: rest) itz =
        (match parse_num st.num_buf 0 st.is_frac with
          | .ok t =>
            match tokenize_timezone ('+' :: rest) with
            | .ok timezone_toks => .ok (st.toks ++ [t], timezone_toks)
            | .err e => .err e
            | .panic => .panic
          | .err e => .err e
          | .panic => .panic)) := by
  have hatv := scan_chars_after_time (p ++ '+' :: rest) p 0 _ _ hscan
  simp only [show (⟨[], [], false, false⟩ : ScanState).after_time = false
    from rfl, Bool.false_eq_true, false_or] at hatv
  have happ := tokenize_loop_append itz (p ++ '+' :: rest) p ('+' :: rest)
    [] [] false false 0 hplus
  rw [hscan] at happ
  simp only [Nat.zero_add] at happ
  have hti : tokenize_interval (p ++ '+' :: rest) itz =
      tokenize_loop itz (p ++ '+' :: rest) [] [] false false 0
        (p ++ '+' :: rest) := rfl
  rw [hti, happ, tokenize_loop_plus]
  constructor
  · intro hno
    rw [if_pos]
    by_cases hi : itz = true
    · right
      intro hatv'
      exact hno ⟨hi, hatv.mp hatv'⟩
    · left
      exact hi
  · rintro ⟨hi, hcol⟩
    rw [if_neg]
    push_neg
    exact ⟨hi, hatv.mpr hcol⟩

theorem tokenize_plus_behavior_witness :
    tokenize_interval ['4', ':', '3', '0', '+', '0', '5', ':', '1', '5'] true =
      .ok ([.Num 4, .Colon, .Num 30], [.Plus, .Num 5, .Colon, .Num 15]) := by
  have h := (tokenize_plus_behavior true ['4', ':', '3', '0']
    ['0', '5', ':', '1', '5'] ⟨[.Num 4, .Colon], ['3', '0'], false, true⟩
    (by decide) (by rfl)).2 ⟨rfl, by decide⟩
  exact h.trans (by rfl)
